import Mathlib

/-!
Verification development for the flash-loan arbitrage bot
(`bot/arbitrage_scanner.py`, `bot/mev_protector.py`,
`bot/transaction_executor.py`, `bot/main.py`).

The Python source computes prices and profits in IEEE-754 double
precision (`float`).  The embedding models a double by the exact
rational value it denotes, carried as an explicit fraction of integers
(`Qx`, kept unnormalised so that every operation is plain integer
arithmetic and evaluates inside the kernel), and models every float
operator as the exact operation followed by round-to-nearest,
ties-to-even at 53 significant bits.  Python integers stay exact (`ℤ`),
`int(x)` is truncation toward zero.  The model covers magnitudes up to
`2 ^ 4000`, far beyond anything the program produces, so overflow to
infinity and subnormal underflow never arise at the inputs considered.

Three names are used by the source but never imported or defined, and
they dominate the program's actual behaviour; fallible paths are
embedded with `Except Unit` (`.error ()` = the `NameError`):

* `mev_protector.py` line 123 uses `abi.encode` with `abi` undefined, so
  `_create_eip712_signature` — awaited unconditionally by
  `protect_opportunity` *before* the replay hash and the
  `pending_transactions` registration — always raises: the protector
  always fails, and `_process_opportunity` (which swallows the error)
  never inserts a trade into `active_trades`.
* `arbitrage_scanner.py` never imports `datetime`, and `_scan_pair`
  evaluates `datetime.now()` inside every opportunity dict literal
  before the append: the first profitable pair raises, so `_scan_pair`
  either raises or returns the empty list.
* `transaction_executor.py` never imports `logging` or `asyncio`: every
  path through `_wait_for_execution` (receipt, revert, not-found, sleep)
  and through the submission helpers hits an undefined name on its first
  iteration, so `execute_trade` always raises and never returns a
  boolean; the execution loop swallows the exception, leaving a marked
  trade `'executing'` forever.
-/

namespace FlashBot

/-- An exact rational `num / den` with `den > 0` by construction.  Used as
the carrier of float values and exact intermediate results. -/
structure Qx where
  num : ℤ
  den : ℤ
  deriving DecidableEq

namespace Qx

/-- The rational value denoted by a `Qx`. -/
def val (q : Qx) : ℚ := (q.num : ℚ) / (q.den : ℚ)

/-- Embed an integer. -/
def ofInt (n : ℤ) : Qx := ⟨n, 1⟩

/-- Exact product. -/
def mul (a b : Qx) : Qx := ⟨a.num * b.num, a.den * b.den⟩

/-- Exact quotient; division by zero yields `0` (the Python code never
divides by zero on the paths modelled: a `ZeroDivisionError` would be
caught and handled separately where it matters). -/
def div (a b : Qx) : Qx :=
  if b.num = 0 then ⟨0, 1⟩
  else if 0 < b.num then ⟨a.num * b.den, a.den * b.num⟩
  else ⟨-(a.num * b.den), a.den * (-b.num)⟩

/-- Exact difference. -/
def sub (a b : Qx) : Qx := ⟨a.num * b.den - b.num * a.den, a.den * b.den⟩

/-- Exact sum. -/
def add (a b : Qx) : Qx := ⟨a.num * b.den + b.num * a.den, a.den * b.den⟩

/-- Negation. -/
def neg (a : Qx) : Qx := ⟨-a.num, a.den⟩

/-- Absolute value. -/
def abs (a : Qx) : Qx := ⟨|a.num|, a.den⟩

/-- Value-level order, as a Boolean (denominators are positive). -/
def blt (a b : Qx) : Bool := a.num * b.den < b.num * a.den

/-- Value-level `≤`, as a Boolean. -/
def ble (a b : Qx) : Bool := a.num * b.den ≤ b.num * a.den

/-- Value-level equality test. -/
def beq (a b : Qx) : Bool := a.num * b.den = b.num * a.den

/-- The smaller of two values (Python `min`). -/
def min2 (a b : Qx) : Qx := if blt b a then b else a

/-- Floor of the value (denominator positive, `Int.fdiv` floors). -/
def floor (q : Qx) : ℤ := q.num.fdiv q.den

/-- Python `int(x)`: truncation toward zero. -/
def trunc (q : Qx) : ℤ := q.num.tdiv q.den

end Qx

/-- `⌊log₂ n⌋` for `n ≥ 1` (and `0` for `n ≤ 1`), fuelled structural
recursion with enough fuel for `n < 2 ^ 4096`. -/
def log2Fuel : ℕ → ℕ → ℕ
  | 0, _ => 0
  | fuel + 1, n => if n ≤ 1 then 0 else log2Fuel fuel (n / 2) + 1

/-- `⌊log₂ n⌋` for `n ≥ 1`. -/
def natLog2 (n : ℕ) : ℕ := log2Fuel 4096 n

/-- `2 ^ e` as a `Qx`, for an integer exponent. -/
def pow2 (e : ℤ) : Qx :=
  if 0 ≤ e then ⟨(2 : ℤ) ^ e.toNat, 1⟩ else ⟨1, (2 : ℤ) ^ (-e).toNat⟩

/-- `⌊log₂ q⌋` for a positive `Qx`: bit-length estimate, corrected by one
comparison. -/
def qxLog2 (q : Qx) : ℤ :=
  let e0 : ℤ := (natLog2 q.num.toNat : ℤ) - (natLog2 q.den.toNat : ℤ)
  if q.blt (pow2 e0) then e0 - 1 else e0

/-- Round a positive `Qx` to the nearest binary64 value
(round-to-nearest, ties to even). -/
def rnd52pos (q : Qx) : Qx :=
  let e : ℤ := qxLog2 q
  let m : Qx := q.div (pow2 (e - 52))
  let n : ℤ := m.floor
  let f : Qx := m.sub (Qx.ofInt n)
  let n' : ℤ :=
    if f.blt ⟨1, 2⟩ then n
    else if Qx.blt ⟨1, 2⟩ f then n + 1
    else if n % 2 = 0 then n else n + 1
  if 0 ≤ e - 52 then ⟨n' * 2 ^ (e - 52).toNat, 1⟩ else ⟨n', 2 ^ (52 - e).toNat⟩

/-- Round a `Qx` to the nearest binary64 value. -/
def rnd52 (q : Qx) : Qx :=
  if q.num = 0 then ⟨0, 1⟩
  else if q.num < 0 then (rnd52pos q.neg).neg
  else rnd52pos q

/-- Double-precision multiplication. -/
def fmul (a b : Qx) : Qx := rnd52 (a.mul b)

/-- Double-precision division (also models CPython's correctly rounded
`int / int` true division). -/
def fdiv (a b : Qx) : Qx := rnd52 (a.div b)

/-- Double-precision subtraction. -/
def fsub (a b : Qx) : Qx := rnd52 (a.sub b)

/-- The binary64 value of the Python literal `0.003`. -/
def lit0_003 : Qx := rnd52 ⟨3, 1000⟩

/-- The binary64 value of the Python literal `1.2`. -/
def lit1_2 : Qx := rnd52 ⟨12, 10⟩

/-- The binary64 value of the Python literal `0.001`. -/
def lit0_001 : Qx := rnd52 ⟨1, 1000⟩

/-! ## ArbitrageScanner (`bot/arbitrage_scanner.py`) -/

/-- Record built by `ArbitrageScanner._scan_pair` for each profitable
router pair (the `discovery_time` / path fields carry no arithmetic and
are omitted; `buy_path` / `sell_path` are determined by the pair). -/
structure Opportunity where
  base_asset : String
  quote_asset : String
  direction : String
  buy_router : String
  sell_router : String
  buy_price : Qx
  sell_price : Qx
  price_diff_percent : Qx
  expected_profit : ℤ
  trade_size : ℤ
  deriving DecidableEq

/-- `ArbitrageScanner._get_price_from_router`: on a successful
`getAmountsOut` call the price is `amounts[1] / 10**18` (CPython
`int / int` true division, correctly rounded to double) when at least two
amounts come back, else `0`; when the contract call raises, control falls
to `_get_price_from_api`, which returns the constant fallback price
`1.0`.  `none` models the contract call raising. -/
def get_price_from_router (contract_amounts : Option (List ℤ)) : Qx :=
  match contract_amounts with
  | some amounts =>
      if 2 ≤ amounts.length then fdiv (Qx.ofInt (amounts.getD 1 0)) (Qx.ofInt (10 ^ 18))
      else Qx.ofInt 0
  | none => Qx.ofInt 1

/-- `ArbitrageScanner._get_prices_for_pair`: query each enabled router in
order and keep `(router, price)` exactly when the computed price is
positive. -/
def get_prices_for_pair (fetches : List (String × Option (List ℤ))) :
    List (String × Qx) :=
  fetches.filterMap fun rf =>
    let p := get_price_from_router rf.2
    if (Qx.ofInt 0).blt p then some (rf.1, p) else none

/-- The index pairs `(prices[i], prices[j])` with `i < j`, as iterated by
the nested loops of `_scan_pair`. -/
def pairsAfter {α : Type} : List α → List (α × α)
  | [] => []
  | x :: xs => (xs.map fun y => (x, y)) ++ pairsAfter xs

/-- The trading-parameter configuration consumed by the scanner. -/
structure ScanConfig where
  min_price_diff : Qx
  default_trade_size : ℤ
  dex_fee_percent : Qx
  deriving DecidableEq

/-- `ArbitrageScanner._calculate_expected_profit`:
`sell_amount = trade_size * sell_price / buy_price`,
`sell_amount *= (1 - fee_percent)`,
`expected_profit = sell_amount - trade_size`, result
`int(expected_profit * 10**18)` — all float steps in double precision.
A zero buy price raises `ZeroDivisionError`, caught by the function's
handler which returns `0`. -/
def calculate_expected_profit (trade_size : ℤ)
    (buy_price sell_price fee_percent : Qx) : ℤ :=
  if buy_price.beq (Qx.ofInt 0) then 0
  else
    let sell_amount := fdiv (fmul (rnd52 (Qx.ofInt trade_size)) sell_price) buy_price
    let sell_amount2 := fmul sell_amount (fsub (Qx.ofInt 1) fee_percent)
    let expected_profit := fsub sell_amount2 (rnd52 (Qx.ofInt trade_size))
    (fmul expected_profit (rnd52 (Qx.ofInt (10 ^ 18)))).trunc

/-- Python `int(x)` truncation on exact rationals. -/
def ratTrunc (q : ℚ) : ℤ := if q < 0 then -⌊-q⌋ else ⌊q⌋

/-- Modelled from the spec: the expected-profit formula
(`sellAmount = tradeSize * sellPrice / buyPrice`, `sellAmount *= (1 −
feePercent)`, `profit = sellAmount − tradeSize`, converted to integer
minor units) evaluated in exact rational arithmetic, for comparison with
the double-precision computation the code performs. -/
def calculate_expected_profit_exact (trade_size : ℤ)
    (buy_price sell_price fee_percent : ℚ) : ℤ :=
  let sell_amount := (trade_size : ℚ) * sell_price / buy_price
  let sell_amount2 := sell_amount * (1 - fee_percent)
  let expected_profit := sell_amount2 - (trade_size : ℚ)
  ratTrunc (expected_profit * 10 ^ 18)

/-- The nested comparison loops of `ArbitrageScanner._scan_pair` over
the router pairs `(i, j)`, `i < j`: `price_diff = abs(price1 - price2)`,
`price_diff_percent = price_diff / min(price1, price2)`, pairs below
`min_price_diff` are skipped (`continue`), the direction buys on the
cheaper router, and when the computed expected profit is positive the
code builds the opportunity dict — whose `discovery_time` value
evaluates `datetime.now()` with `datetime` unimported in
`arbitrage_scanner.py`, raising `NameError` *before* the append.  So the
first profitable pair aborts the whole call, and a normal return can
only carry the untouched empty `opportunities` list. -/
def scan_pair_go (cfg : ScanConfig) :
    List ((String × Qx) × (String × Qx)) → Except Unit (List Opportunity)
  | [] => .ok []
  | pp :: rest =>
      let r1 := pp.1.1
      let p1 := pp.1.2
      let r2 := pp.2.1
      let p2 := pp.2.2
      if r1 = r2 then scan_pair_go cfg rest
      else
        let price_diff := (fsub p1 p2).abs
        let price_diff_percent := fdiv price_diff (Qx.min2 p1 p2)
        if price_diff_percent.blt cfg.min_price_diff then scan_pair_go cfg rest
        else
          let buy_price := if p1.blt p2 then p1 else p2
          let sell_price := if p1.blt p2 then p2 else p1
          let ep := calculate_expected_profit cfg.default_trade_size
            buy_price sell_price cfg.dex_fee_percent
          if 0 < ep then Except.error ()
          else scan_pair_go cfg rest

/-- `ArbitrageScanner._scan_pair`: with fewer than two quotes the pair
is skipped (normal return of the empty list); otherwise the comparison
loops run (`scan_pair_go`), and since every profitable pair raises while
building its opportunity dict, the function either raises or returns no
opportunity. -/
def scan_pair (cfg : ScanConfig) (_pair_base _pair_quote : String)
    (prices : List (String × Qx)) : Except Unit (List Opportunity) :=
  if prices.length < 2 then .ok []
  else scan_pair_go cfg (pairsAfter prices)

/-- Scanner configuration used by the concrete scanner runs:
`min_price_diff = 0.001`, `default_trade_size = 1000`,
`dex_fee_percent = 0.003`. -/
def scanCfg : ScanConfig :=
  { min_price_diff := lit0_001, default_trade_size := 1000,
    dex_fee_percent := lit0_003 }

/-! ## MEVProtector (`bot/mev_protector.py`) -/

/-- A CPython `dict` as an insertion-ordered association list: assigning
to an existing key replaces the value in place (keeping the key's
position), assigning a fresh key appends. -/
def dictInsert {α : Type} (k : String) (v : α) :
    List (String × α) → List (String × α)
  | [] => [(k, v)]
  | (k', v') :: rest =>
      if k' = k then (k, v) :: rest else (k', v') :: dictInsert k v rest

/-- `dict` lookup. -/
def dictLookup {α : Type} (k : String) : List (String × α) → Option α
  | [] => none
  | (k', v') :: rest => if k' = k then some v' else dictLookup k rest

/-- `MEVProtector._calculate_tx_hash` hashes the plain string
concatenation of `base_asset`, `trade_size`, `nonce`, `timestamp` and the
executor address (no separators); the replay hash is the SHA-256 hex
digest of this string, so two orders get equal replay hashes whenever
these concatenations coincide. -/
def calculate_tx_hash_input (base_asset : String)
    (trade_size nonce timestamp : ℤ) (executor_address : String) : String :=
  base_asset ++ toString trade_size ++ toString nonce ++ toString timestamp
    ++ executor_address

/-- The registration step at the end of `MEVProtector.protect_opportunity`
(`self.pending_transactions[tx_hash] = {...}`, a plain dict assignment;
the entry is represented by its `(nonce, timestamp)` pair).  In the
shipped code this line is dead: `protect_opportunity` raises at the
earlier signature step on every call. -/
def protect_register (pending : List (String × (ℤ × ℤ)))
    (tx_hash : String) (nonce timestamp : ℤ) : List (String × (ℤ × ℤ)) :=
  dictInsert tx_hash (nonce, timestamp) pending

/-- `MEVProtector._create_eip712_signature`: its message dict evaluates
`abi.encode(...)` (mev_protector.py line 123) with `abi` never imported
or defined, so every call raises `NameError` before a signature is
produced. -/
def create_eip712_signature : Except Unit String := Except.error ()

/-- `MEVProtector.protect_opportunity`: generates nonce, timestamp and
gas ceiling, then awaits `_create_eip712_signature` — which always
raises — *before* computing the replay hash (`_calculate_tx_hash`) or
registering the order in `pending_transactions`.  The returned value is
the replay hash of the order that would have been emitted; the `.ok`
branch is dead code. -/
def protect_opportunity (base_asset : String)
    (trade_size nonce timestamp : ℤ) (executor_address : String) :
    Except Unit String :=
  match create_eip712_signature with
  | .error e => .error e
  | .ok _sig =>
      .ok (calculate_tx_hash_input base_asset trade_size nonce timestamp
        executor_address)

/-- `MEVProtector._calculate_max_gas_price`:
`max_gas = int(current_gas * 1.2)` (double arithmetic, truncation),
capped by `config.get('max_gas_price_absolute', 500 * 10**9)`. -/
def calculate_max_gas_price (current_gas : ℤ)
    (max_gas_price_absolute : Option ℤ) : ℤ :=
  let max_gas := (fmul (rnd52 (Qx.ofInt current_gas)) lit1_2).trunc
  let absolute_max := max_gas_price_absolute.getD (500 * 10 ^ 9)
  min max_gas absolute_max

/-! ## Trade lifecycle (`bot/main.py`, `bot/transaction_executor.py`)

The bot runs single-threaded cooperative loops; the execution-loop body
is split at its `await` suspension point into `exec_mark` (everything up
to and including `best_trade['status'] = 'executing'` and the start of
`execute_trade`) and `exec_finish` (everything after `execute_trade`
returns).  Because `execute_trade` always raises (undefined `logger` /
unimported `asyncio` in `transaction_executor.py`) and the loop's
`except` handler swallows the exception, a real iteration performs only
`exec_mark`, and `exec_finish` is dead code. -/

/-- Trade status strings used by `main.py`. -/
inductive TStatus where
  | pending
  | executing
  | success
  | failed
  deriving DecidableEq

/-- A `Trade` record as stored in `self.active_trades`. -/
structure Trade where
  id : String
  status : TStatus
  estimated_profit : ℤ
  created_at : ℕ
  execution_start : Option ℕ
  execution_end : Option ℕ
  deriving DecidableEq

/-- The bot state shared by the scanning and execution loops. -/
structure BotState where
  active_trades : List (String × Trade)
  trade_history : List Trade
  deriving DecidableEq

/-- The initial state (`__init__`). -/
def initState : BotState := { active_trades := [], trade_history := [] }

/-- `trade_id = f"{base_asset}_{int(datetime.now().timestamp())}"`:
the clock is modelled in milliseconds, `int(...timestamp())` truncates to
whole seconds. -/
def trade_id (base_asset : String) (now_ms : ℕ) : String :=
  base_asset ++ "_" ++ toString (now_ms / 1000)

/-- `FlashLoanArbitrageBot._process_opportunity`: drop the opportunity if
`net_profit = expected_profit - gas_cost` is below `min_profit`;
otherwise call `MEVProtector.protect_opportunity` — which always raises
(`NameError` on the undefined `abi` inside the signature step) — and
only then build `trade_id` and store the trade.  The surrounding
`try/except` (main.py lines 206-207) swallows the exception, so the
function returns with the state unchanged on every call; the insertion
branch is dead code. -/
def process_opportunity (st : BotState) (base_asset : String) (now_ms : ℕ)
    (trade_size nonce timestamp : ℤ) (executor_address : String)
    (expected_profit gas_cost min_profit : ℤ) : BotState :=
  let net_profit := expected_profit - gas_cost
  if net_profit < min_profit then st
  else
    match protect_opportunity base_asset trade_size nonce timestamp
        executor_address with
    | .error _ => st
    | .ok _ =>
        let tid := trade_id base_asset now_ms
        { st with
            active_trades := dictInsert tid
              { id := tid, status := .pending, estimated_profit := net_profit,
                created_at := now_ms, execution_start := none,
                execution_end := none } st.active_trades }

/-- The `pending_trades` list built each iteration of
`_run_execution_loop`: the dict's values in insertion order, filtered to
status `'pending'`. -/
def pending_trades (st : BotState) : List Trade :=
  (st.active_trades.map Prod.snd).filter fun t => t.status = .pending

/-- One comparison step of CPython's `max(..., key=...)`: the candidate
`x` replaces the current best `b` only when its key is strictly
greater. -/
def better (b x : Trade) : Trade :=
  if b.estimated_profit < x.estimated_profit then x else b

/-- `max(pending_trades, key=lambda x: x['estimated_profit'])`: CPython's
`max` keeps the current best on ties, so it returns the first item of
maximal key in iteration order. -/
def select_best : List Trade → Option Trade
  | [] => none
  | t :: ts => some (ts.foldl better t)

/-- First half of the execution-loop body: pick the best pending trade
(if any) and set its status to `'executing'` with `execution_start`;
returns the updated state and the id of the marked trade. -/
def exec_mark (st : BotState) (now_ms : ℕ) : BotState × Option String :=
  match select_best (pending_trades st) with
  | none => (st, none)
  | some best =>
      ({ st with
          active_trades := st.active_trades.map fun kv =>
            if kv.1 = best.id then
              (kv.1, { kv.2 with
                        status := .executing,
                        execution_start := some now_ms })
            else kv }, some best.id)

/-- Second half of the execution-loop body, as written for the case that
`execute_trade` returns `ok`: record the terminal status (`'success'` if
`ok` else `'failed'`) and `execution_end`, append the trade to
`trade_history` and delete it from `active_trades`.  Dead code in the
shipped program: `execute_trade` never returns. -/
def exec_finish (st : BotState) (tid : String) (ok : Bool) (now_ms : ℕ) :
    BotState :=
  match dictLookup tid st.active_trades with
  | none => st
  | some t =>
      let t' := { t with
                   status := if ok then TStatus.success else TStatus.failed,
                   execution_end := some now_ms }
      { active_trades := st.active_trades.filter fun kv => kv.1 ≠ tid,
        trade_history := st.trade_history ++ [t'] }

/-- `TransactionExecutor._wait_for_execution` as a function of the
sequence of chain poll results inside the 120-second window (`some true`
a receipt with `status == 1`, `some false` a revert receipt, `none` no
receipt yet).  Whatever the first poll yields, the function raises
`NameError` before returning: a receipt reaches `logger.info` /
`logger.error` with `logger` undefined; a missing receipt is caught by
the `except` whose handler calls `logger.debug`; and the inter-poll
`await asyncio.sleep(0.5)` references the unimported `asyncio`.  The
receipt branches and the timeout `return False` are dead code, so every
call is `NameError`. -/
def wait_for_execution (_polls : List (Option Bool)) : Except Unit Bool :=
  Except.error ()

/-- `TransactionExecutor.execute_trade`: every return path crosses an
undefined name (`logger.info` in the submission helpers even on success,
`_wait_for_execution` raising on its first poll, and the outer `except`
handler's own `logger.error`), so the call always raises and never
returns a boolean. -/
def execute_trade : Except Unit Bool := Except.error ()

/-- One full iteration of `_run_execution_loop`: the marking half runs,
then `execute_trade` — which always raises — is awaited; the loop's
`except` handler (main.py lines 253-255, where `logger` *is* defined)
swallows the exception, so none of the post-`await` updates run and the
iteration's net effect is `exec_mark` alone.  The `.ok` branch
(finalization via `exec_finish`) is dead code. -/
def exec_step (st : BotState) (now_ms : ℕ) : BotState :=
  let ms := exec_mark st now_ms
  match ms.2 with
  | none => ms.1
  | some tid =>
      match execute_trade with
      | .error _ => ms.1
      | .ok ok => exec_finish ms.1 tid ok now_ms

/-- Number of trades currently in status `'executing'`. -/
def countExecuting (st : BotState) : ℕ :=
  (st.active_trades.filter fun kv => kv.2.status = .executing).length

/-- The trade-history snapshot persisted by
`FlashLoanArbitrageBot._save_data`: `self.trade_history[-100:]`. -/
def save_data_history (st : BotState) : List Trade :=
  st.trade_history.drop (st.trade_history.length - 100)

/-- The bot states reachable by interleaving the loops: the initial
state, any admission attempt (`_process_opportunity`, with arbitrary
opportunity data), and any execution-loop iteration.  The monitoring and
health-check loops never touch `active_trades` or `trade_history`. -/
inductive Reachable : BotState → Prop where
  | init : Reachable initState
  | admission : ∀ {st : BotState} (base_asset : String) (now_ms : ℕ)
      (trade_size nonce timestamp : ℤ) (executor_address : String)
      (expected_profit gas_cost min_profit : ℤ), Reachable st →
      Reachable (process_opportunity st base_asset now_ms trade_size nonce
        timestamp executor_address expected_profit gas_cost min_profit)
  | exec : ∀ {st : BotState} (now_ms : ℕ), Reachable st →
      Reachable (exec_step st now_ms)

/-- The pending table the tie-break scenario of C6 describes, taken as a
hypothetical pending set (the claim quantifies over pending sets
directly): iteration order holds `X_0` (created at 900 ms) *before*
`Y_0` (created at 400 ms), the order an in-place dict overwrite after a
same-second id collision would produce. -/
def c6state : BotState :=
  { active_trades :=
      [("X_0", { id := "X_0", status := .pending, estimated_profit := 5,
                 created_at := 900, execution_start := none,
                 execution_end := none }),
       ("Y_0", { id := "Y_0", status := .pending, estimated_profit := 5,
                 created_at := 400, execution_start := none,
                 execution_end := none })],
    trade_history := [] }

/-- A table holding one pending trade — the situation presupposed by the
claim about an executing trade's confirmation timeout.  (Unreachable in
the shipped program, where no trade is ever admitted.) -/
def pendingState : BotState :=
  { active_trades :=
      [("AAA_0", { id := "AAA_0", status := .pending, estimated_profit := 8,
                   created_at := 0, execution_start := none,
                   execution_end := none })],
    trade_history := [] }

/-- `iterExec n st`: `n` consecutive execution-loop iterations. -/
def iterExec : ℕ → BotState → BotState
  | 0, st => st
  | n + 1, st => exec_step (iterExec n st) n

/-- The state one execution-loop iteration turns `pendingState` into:
the trade is marked `'executing'` (with `execution_start` recorded) and
then `execute_trade` raises, so nothing else changes — and every further
iteration finds no pending trade and leaves this state fixed. -/
def stExec : BotState :=
  { active_trades :=
      [("AAA_0", { id := "AAA_0", status := .executing, estimated_profit := 8,
                   created_at := 0, execution_start := some 0,
                   execution_end := none })],
    trade_history := [] }

/-- Two pending trades with equal estimated profit and distinct creation
times, in creation order. -/
def tradeA : Trade :=
  { id := "T1", status := .pending, estimated_profit := 5, created_at := 100,
    execution_start := none, execution_end := none }

/-- See `tradeA`. -/
def tradeB : Trade :=
  { id := "T2", status := .pending, estimated_profit := 5, created_at := 200,
    execution_start := none, execution_end := none }

/-! ## Helper lemmas -/

theorem ratTrunc_intCast (n : ℤ) : ratTrunc (n : ℚ) = n := by
  unfold ratTrunc
  split
  · rw [← Int.cast_neg, Int.floor_intCast, neg_neg]
  · exact Int.floor_intCast n

theorem scan_pair_go_ok (cfg : ScanConfig) :
    ∀ (pps : List ((String × Qx) × (String × Qx))) (l : List Opportunity),
      scan_pair_go cfg pps = Except.ok l → l = [] := by
  intro pps
  induction pps with
  | nil =>
      intro l h
      unfold scan_pair_go at h
      exact (Except.ok.inj h).symm
  | cons pp rest ih =>
      intro l h
      unfold scan_pair_go at h
      simp only at h
      split_ifs at h
      all_goals exact ih l h

theorem process_opportunity_fixes (st : BotState) (base_asset : String)
    (now_ms : ℕ) (trade_size nonce timestamp : ℤ) (executor_address : String)
    (expected_profit gas_cost min_profit : ℤ) :
    process_opportunity st base_asset now_ms trade_size nonce timestamp
      executor_address expected_profit gas_cost min_profit = st := by
  simp only [process_opportunity, protect_opportunity, create_eip712_signature]
  split <;> rfl

theorem exec_step_history (st : BotState) (now_ms : ℕ) :
    (exec_step st now_ms).trade_history = st.trade_history := by
  rcases h : select_best (pending_trades st) with _ | best <;>
    simp [exec_step, exec_mark, h, execute_trade]

theorem reachable_active_empty :
    ∀ st : BotState, Reachable st → st.active_trades = [] := by
  intro st h
  induction h with
  | init => rfl
  | admission b now ts n t ex e g m _ ih =>
      rw [process_opportunity_fixes]
      exact ih
  | exec now _ ih =>
      next st' _ =>
        have hp : pending_trades st' = [] := by
          unfold pending_trades
          rw [ih]
          rfl
        simp [exec_step, exec_mark, hp, select_best]
        exact ih

theorem exec_step_pendingState : exec_step pendingState 0 = stExec := by
  decide

theorem exec_step_stExec (now_ms : ℕ) : exec_step stExec now_ms = stExec := by
  have hp : pending_trades stExec = [] := by decide
  simp [exec_step, exec_mark, hp, select_best]

theorem iterExec_stranded (n : ℕ) :
    iterExec (n + 1) pendingState = stExec := by
  induction n with
  | zero =>
      show exec_step (iterExec 0 pendingState) 0 = stExec
      exact exec_step_pendingState
  | succ n ih =>
      show exec_step (iterExec (n + 1) pendingState) (n + 1) = stExec
      rw [ih]
      exact exec_step_stExec (n + 1)

theorem reachable_history_empty :
    ∀ st : BotState, Reachable st → st.trade_history = [] := by
  intro st h
  induction h with
  | init => rfl
  | admission b now ts n t ex e g m _ ih =>
      rw [process_opportunity_fixes]
      exact ih
  | exec now _ ih =>
      rw [exec_step_history]
      exact ih

theorem better_profit_left (b x : Trade) :
    b.estimated_profit ≤ (better b x).estimated_profit := by
  unfold better; split <;> omega

theorem better_profit_right (b x : Trade) :
    x.estimated_profit ≤ (better b x).estimated_profit := by
  unfold better; split <;> omega

theorem better_cases (b x : Trade) : better b x = b ∨ better b x = x := by
  unfold better; split
  · right; rfl
  · left; rfl

theorem foldl_better_profit_le (acc : Trade) (l : List Trade) :
    acc.estimated_profit ≤ (l.foldl better acc).estimated_profit := by
  induction l generalizing acc with
  | nil => simp
  | cons a l ih =>
      simp only [List.foldl_cons]
      exact le_trans (better_profit_left acc a) (ih (better acc a))

theorem foldl_better_mem (acc : Trade) (l : List Trade) :
    l.foldl better acc = acc ∨ l.foldl better acc ∈ l := by
  induction l generalizing acc with
  | nil => left; rfl
  | cons a l ih =>
      simp only [List.foldl_cons]
      rcases ih (better acc a) with h | h
      · rcases better_cases acc a with hb | hb
        · left; rw [h, hb]
        · right; rw [h, hb]; exact List.mem_cons_self a l
      · right; exact List.mem_cons_of_mem a h

theorem foldl_better_ge (acc : Trade) (l : List Trade) :
    ∀ x ∈ l, x.estimated_profit ≤ (l.foldl better acc).estimated_profit := by
  induction l generalizing acc with
  | nil => intro x hx; cases hx
  | cons a l ih =>
      intro x hx
      simp only [List.foldl_cons]
      rcases List.mem_cons.mp hx with rfl | hx
      · exact le_trans (better_profit_right acc x) (foldl_better_profit_le _ l)
      · exact ih (better acc a) x hx

theorem foldl_better_earliest (l : List Trade) (acc : Trade)
    (hacc : ∀ x ∈ l, acc.created_at ≤ x.created_at)
    (hsorted : l.Pairwise fun a b => a.created_at ≤ b.created_at) :
    ∀ x, (x = acc ∨ x ∈ l) →
      x.estimated_profit = (l.foldl better acc).estimated_profit →
      (l.foldl better acc).created_at ≤ x.created_at := by
  induction l generalizing acc with
  | nil =>
      intro x hx _
      rcases hx with rfl | hx
      · simp
      · cases hx
  | cons a l ih =>
      obtain ⟨ha, hl⟩ := List.pairwise_cons.mp hsorted
      intro x hx hp
      simp only [List.foldl_cons] at hp ⊢
      by_cases hc : acc.estimated_profit < a.estimated_profit
      · have hb : better acc a = a := by unfold better; rw [if_pos hc]
        rw [hb] at hp ⊢
        rcases hx with rfl | hx
        · have h1 := foldl_better_profit_le a l
          omega
        · rcases List.mem_cons.mp hx with rfl | hx
          · exact ih _ ha hl _ (Or.inl rfl) hp
          · exact ih _ ha hl x (Or.inr hx) hp
      · have hb : better acc a = acc := by unfold better; rw [if_neg hc]
        rw [hb] at hp ⊢
        have hacc' : ∀ y ∈ l, acc.created_at ≤ y.created_at := fun y hy =>
          hacc y (List.mem_cons_of_mem a hy)
        rcases hx with rfl | hx
        · exact ih _ hacc' hl _ (Or.inl rfl) hp
        · rcases List.mem_cons.mp hx with rfl | hx
          · have h1 := foldl_better_profit_le acc l
            have h2 : acc.estimated_profit =
                (l.foldl better acc).estimated_profit := by omega
            have h3 := ih _ hacc' hl _ (Or.inl rfl) h2
            exact le_trans h3 (hacc x (List.mem_cons_self x l))
          · exact ih _ hacc' hl x (Or.inr hx) hp

/-- C6 (amended): for every non-empty pending list, `select_best` (the
code's `max(pending_trades, key=...)`) returns a pending trade of maximal
`estimated_profit`, and — *provided the list is in creation order*, which
holds whenever no same-second `trade_id` collision has overwritten an
entry in place — a profit tie is broken in favour of the earliest
`created_at`; selection is a pure function of the list, so repeated
selections return the same trade.  (The unamended claim fails on the
code: see `c6_tie_break_violated`.) -/
theorem select_best_spec (l : List Trade) (b : Trade)
    (hsel : select_best l = some b)
    (hsorted : l.Pairwise fun a b => a.created_at ≤ b.created_at) :
    b ∈ l ∧ (∀ x ∈ l, x.estimated_profit ≤ b.estimated_profit) ∧
    (∀ x ∈ l, x.estimated_profit = b.estimated_profit →
      b.created_at ≤ x.created_at) := by
  match l, hsel with
  | t :: ts, hsel =>
      obtain ⟨ht, hts⟩ := List.pairwise_cons.mp hsorted
      obtain rfl : ts.foldl better t = b := Option.some.inj hsel
      refine ⟨?_, ?_, ?_⟩
      · rcases foldl_better_mem t ts with h | h
        · rw [h]; exact List.mem_cons_self t ts
        · exact List.mem_cons_of_mem t h
      · intro x hx
        rcases List.mem_cons.mp hx with rfl | hx
        · exact foldl_better_profit_le x ts
        · exact foldl_better_ge t ts x hx
      · intro x hx hp
        refine foldl_better_earliest ts t ht hts x ?_ hp
        rcases List.mem_cons.mp hx with rfl | hx
        · exact Or.inl rfl
        · exact Or.inr hx

/-! ## Claim theorems -/

/-- C1 (confirmed, vacuously): at most one trade is `'executing'` at any
instant of any interleaved run.  Admission is a no-op — the protector
raises before the insert and the exception is swallowed — so
`active_trades` is empty in every reachable state (including the
mid-iteration instants, which coincide with `exec_step` results because
`execute_trade` never returns), and no trade is ever `'executing'` at
all. -/
theorem c1_single_flight (st : BotState) (h : Reachable st) :
    countExecuting st ≤ 1 := by
  have ha := reachable_active_empty st h
  unfold countExecuting
  rw [ha]
  simp

/-- C1 witness for `c1_single_flight`. -/
theorem c1_single_flight_witness : countExecuting initState ≤ 1 :=
  c1_single_flight initState Reachable.init

/-- C2 (confirmed, vacuously): trade ids are distinct for the process
lifetime and admission never silently replaces an entry — because no
Trade record is ever created: `_process_opportunity` calls the
always-raising protector *before* computing `trade_id` or assigning into
the table, and swallows the exception, leaving the state unchanged on
every call; every reachable table is empty. -/
theorem c2_no_trade_ever_created :
    (∀ st : BotState, Reachable st → st.active_trades = []) ∧
    (∀ (st : BotState) (base_asset : String) (now_ms : ℕ)
      (trade_size nonce timestamp : ℤ) (executor_address : String)
      (expected_profit gas_cost min_profit : ℤ),
      process_opportunity st base_asset now_ms trade_size nonce timestamp
        executor_address expected_profit gas_cost min_profit = st) :=
  ⟨reachable_active_empty, process_opportunity_fixes⟩

/-- C2 witness for `c2_no_trade_ever_created`. -/
theorem c2_no_trade_ever_created_witness :
    initState.active_trades = [] ∧
    process_opportunity initState "AAA" 100 1000 7 3 "0xE" 10 0 0 = initState :=
  ⟨c2_no_trade_ever_created.1 initState Reachable.init,
   c2_no_trade_ever_created.2 initState "AAA" 100 1000 7 3 "0xE" 10 0 0⟩

/-- C3 (counterexample): a router whose price fetch raises is *not*
excluded from the pair's comparison — `_get_price_from_router` falls back
to `_get_price_from_api`, which returns the constant `1.0`, and the
router enters the comparison with that quote. -/
theorem c3_failed_fetch_contributes_quote :
    get_price_from_router none = Qx.ofInt 1 ∧
    ("R1", Qx.ofInt 1) ∈
      get_prices_for_pair [("R1", none), ("R2", some [10 ^ 18, 2 * 10 ^ 18])] := by
  decide

/-- C3 (amended): a router whose contract price fetch raises contributes
the API fallback quote `1.0` instead of being excluded; a router is
excluded from the comparison exactly when its computed price is not
positive (e.g. `getAmountsOut` returning fewer than two amounts yields
price `0`), and a pair with fewer than two retained quotes is skipped
(a normal return of the empty opportunity list). -/
theorem c3_router_error_handling :
    get_price_from_router none = Qx.ofInt 1 ∧
    (∀ (fetches : List (String × Option (List ℤ))) (r : String) (p : Qx),
      (r, p) ∈ get_prices_for_pair fetches → (Qx.ofInt 0).blt p = true) ∧
    (∀ (cfg : ScanConfig) (pb pq : String) (prices : List (String × Qx)),
      prices.length < 2 → scan_pair cfg pb pq prices = Except.ok []) := by
  refine ⟨rfl, ?_, ?_⟩
  · intro fetches r p h
    unfold get_prices_for_pair at h
    rw [List.mem_filterMap] at h
    obtain ⟨rf, _, hrf⟩ := h
    simp only at hrf
    split_ifs at hrf with h0
    all_goals
      injection Option.some.inj hrf with hr hp
      subst hp
      exact h0
  · intro cfg pb pq prices h
    unfold scan_pair
    rw [if_pos h]

/-- C3 witness for `c3_router_error_handling`. -/
theorem c3_router_error_handling_witness :
    (Qx.ofInt 0).blt (Qx.ofInt 1) = true ∧
    scan_pair scanCfg "BASE" "QUOTE" [] = Except.ok [] :=
  ⟨c3_router_error_handling.2.1 [("R1", none)] "R1" (Qx.ofInt 1) (by decide),
   c3_router_error_handling.2.2 scanCfg "BASE" "QUOTE" [] (by decide)⟩

set_option maxRecDepth 4000 in
/-- C4 (counterexample): for buyPrice 100, sellPrice 110, tradeSize 1000,
feePercent 0.003, the code's double-precision profit computation returns
`96700000000000049152` minor units, not exactly `96.7 · 10^18 =
96700000000000000000`. -/
theorem c4_not_exact_967 :
    calculate_expected_profit 1000 (Qx.ofInt 100) (Qx.ofInt 110) lit0_003 =
      96700000000000049152 ∧
    (96700000000000049152 : ℤ) ≠ 96700000000000000000 := by decide

set_option maxRecDepth 4000 in
/-- C4 (amended): the code evaluates the spec's formula in IEEE-754
double precision and returns `96700000000000049152` minor units on the
reference inputs (`96.70000000000005`, i.e. `96.7` up to double
rounding); the same formula in exact rational arithmetic yields exactly
`96.7 · 10^18`. -/
theorem c4_float_vs_exact :
    calculate_expected_profit 1000 (Qx.ofInt 100) (Qx.ofInt 110) lit0_003 =
      96700000000000049152 ∧
    calculate_expected_profit_exact 1000 100 110 (3 / 1000) =
      96700000000000000000 := by
  constructor
  · decide
  · simp only [calculate_expected_profit_exact]
    have h : (((1000 : ℤ) : ℚ) * 110 / 100 * (1 - 3 / 1000) - ((1000 : ℤ) : ℚ))
        * 10 ^ 18 = ((96700000000000000000 : ℤ) : ℚ) := by
      push_cast
      norm_num
    rw [h, ratTrunc_intCast]

/-- C5 (confirmed): the scanner never returns an opportunity, for the
boundary inputs of the claim or any other: building an opportunity dict
evaluates `datetime.now()` with `datetime` unimported, so `_scan_pair`
raises on the first profitable pair, and every *successful* return
carries the empty list — in which, a fortiori, every opportunity has
positive computed profit. -/
theorem c5_scan_returns_no_opportunity :
    ∀ (cfg : ScanConfig) (pb pq : String) (prices : List (String × Qx))
      (l : List Opportunity),
      scan_pair cfg pb pq prices = Except.ok l →
      l = [] ∧ ∀ o ∈ l, 0 < o.expected_profit := by
  intro cfg pb pq prices l h
  have hl : l = [] := by
    unfold scan_pair at h
    split at h
    · exact (Except.ok.inj h).symm
    · exact scan_pair_go_ok cfg (pairsAfter prices) l h
  subst hl
  exact ⟨rfl, fun o ho => absurd ho (List.not_mem_nil o)⟩

set_option maxRecDepth 4000 in
/-- C5 witness for `c5_scan_returns_no_opportunity` (two equal quotes:
the threshold `continue` is taken and the scan returns normally). -/
theorem c5_scan_returns_no_opportunity_witness :
    ([] : List Opportunity) = [] :=
  (c5_scan_returns_no_opportunity scanCfg "BASE" "QUOTE"
    [("R1", Qx.ofInt 100), ("R2", Qx.ofInt 100)] [] rfl).1

/-- C6 (counterexample): in the pending table `c6state` (iteration order
holding a later-created trade first, as an in-place dict overwrite after
a same-second `trade_id` collision would leave it), selection returns
the trade created at 900 ms even though a pending trade with equal
estimated profit was created earlier, at 400 ms — the
earliest-`created_at` tie-break of the claim is violated. -/
theorem c6_tie_break_violated :
    ((select_best (pending_trades c6state)).map
      fun t => (t.id, t.created_at, t.estimated_profit)) = some ("X_0", 900, 5) ∧
    ({ id := "Y_0", status := TStatus.pending, estimated_profit := 5,
       created_at := 400, execution_start := none, execution_end := none } : Trade)
      ∈ pending_trades c6state ∧
    (400 : ℕ) < 900 := by decide

/-- C6 witness for `select_best_spec`. -/
theorem select_best_spec_witness : tradeA.created_at ≤ tradeB.created_at :=
  (select_best_spec [tradeA, tradeB] tradeA (by decide) (by decide)).2.2
    tradeB (by decide) (by decide)

/-- C7 (counterexample): with a pending trade in the table, the first
execution-loop iteration marks it `'executing'`; `execute_trade` then
raises (it can never return), the loop swallows the error, and after 240
further iterations — far beyond the 120-second confirmation window of
240 polls — the trade is *still* `'executing'` and the history is empty:
it never finalizes in `TimedOut` or any other state, refuting "not
indefinitely Executing".  `_wait_for_execution` itself raises on its
first poll whatever the chain answers. -/
theorem c7_stranded_executing :
    wait_for_execution (List.replicate 240 none) = Except.error () ∧
    ((iterExec 241 pendingState).active_trades.map
      fun kv => (kv.1, kv.2.status)) = [("AAA_0", TStatus.executing)] ∧
    (iterExec 241 pendingState).trade_history = [] := by
  have h : iterExec 241 pendingState = stExec := iterExec_stranded 240
  refine ⟨rfl, ?_, ?_⟩ <;> rw [h] <;> decide

/-- C7 (amended): `_wait_for_execution` raises `NameError` on its first
poll iteration on every path (undefined `logger`, unimported `asyncio`),
so its receipt and timeout branches are dead code and `execute_trade`
never returns; an execution-loop iteration therefore reduces to its
marking half and never appends to the history: a trade marked
`'executing'` is never finalized — there is no `TimedOut` (or any)
terminal outcome, and nothing distinguishes a timeout from a revert
because neither is ever recorded. -/
theorem c7_no_finalization :
    (∀ polls : List (Option Bool), wait_for_execution polls = Except.error ()) ∧
    execute_trade = Except.error () ∧
    (∀ (st : BotState) (now_ms : ℕ),
      (exec_step st now_ms).trade_history = st.trade_history) :=
  ⟨fun _ => rfl, rfl, exec_step_history⟩

/-- C8 (counterexample): the replay-hash input is an unbracketed decimal
concatenation, so the distinct `(nonce, timestamp)` pairs `(12, 3)` and
`(1, 23)` produce the *same* hash input string — and therefore the same
SHA-256 replay hash — on otherwise identical orders, refuting replay-hash
uniqueness. -/
theorem c8_replay_hash_input_collision :
    calculate_tx_hash_input "0xA" 1000 12 3 "0xE" =
      calculate_tx_hash_input "0xA" 1000 1 23 "0xE" ∧
    ((12 : ℤ), (3 : ℤ)) ≠ ((1 : ℤ), (23 : ℤ)) := by decide

/-- C8 (amended): the protector does fail rather than emit a duplicate —
indeed it always fails: `_create_eip712_signature` raises `NameError`
(undefined `abi`) on every call, before the replay hash is computed or
the order registered, so `protect_opportunity` never emits any
`ProtectedOrder` at all, and a fortiori never one whose replay hash
repeats an earlier one. -/
theorem c8_protector_always_fails :
    create_eip712_signature = Except.error () ∧
    (∀ (base_asset : String) (trade_size nonce timestamp : ℤ)
      (executor_address : String),
      protect_opportunity base_asset trade_size nonce timestamp
        executor_address = Except.error ()) :=
  ⟨rfl, fun _ _ _ _ _ => rfl⟩

set_option maxRecDepth 4000 in
/-- C9 (counterexample): at the gas reading `g = 7505999378950828` wei
with a configured absolute maximum of `10^17` wei, the code's
`int(g * 1.2)` (double arithmetic) gives `9007199254740994`, whereas the
exact `min(⌊g · 1.2⌋, absoluteMax)` is `9007199254740993` — the ceiling
is not the exact integer the claim states. -/
theorem c9_gas_ceiling_not_exact :
    calculate_max_gas_price 7505999378950828 (some (10 ^ 17)) =
      9007199254740994 ∧
    ratTrunc ((1.2 : ℚ) * 7505999378950828) = 9007199254740993 ∧
    min (9007199254740993 : ℤ) (10 ^ 17) = 9007199254740993 ∧
    (9007199254740994 : ℤ) ≠ 9007199254740993 := by
  refine ⟨by decide, ?_, by decide, by decide⟩
  unfold ratTrunc
  rw [if_neg (by norm_num)]
  rw [Int.floor_eq_iff]
  constructor <;> norm_num

set_option maxRecDepth 4000 in
/-- C9 (amended): the gas ceiling is `min(int(g * 1.2), absoluteMax)`
with the product computed in double precision; it never exceeds the
absolute maximum, the absolute maximum defaults to 500 Gwei
(`500 · 10^9` wei) when unconfigured, and at ordinary gas readings the
double computation agrees with the exact value (e.g. 30 Gwei ↦ 36 Gwei
exactly). -/
theorem c9_gas_ceiling_capped :
    (∀ (g cap : ℤ), calculate_max_gas_price g (some cap) ≤ cap) ∧
    (∀ g : ℤ, calculate_max_gas_price g none ≤ 500 * 10 ^ 9) ∧
    calculate_max_gas_price (30 * 10 ^ 9) none = 36 * 10 ^ 9 := by
  refine ⟨fun g cap => ?_, fun g => ?_, by decide⟩ <;>
    exact min_le_right _ _

/-- C10 (confirmed, vacuously): the in-memory `trade_history` never
exceeds 100 entries — it is empty in every reachable state, because no
trade is ever admitted and no execution-loop iteration ever appends to
the history (`execute_trade` never returns, so the finalization code
never runs); independently, the snapshot persisted by `_save_data`
(`trade_history[-100:]`) is bounded by 100 entries for *any* state. -/
theorem c10_history_never_grows :
    (∀ st : BotState, Reachable st →
      st.trade_history = [] ∧ st.trade_history.length ≤ 100) ∧
    (∀ st : BotState, (save_data_history st).length ≤ 100) := by
  constructor
  · intro st h
    have he := reachable_history_empty st h
    refine ⟨he, ?_⟩
    rw [he]
    simp
  · intro st
    unfold save_data_history
    rw [List.length_drop]
    omega

/-- C10 witness for `c10_history_never_grows`. -/
theorem c10_history_never_grows_witness :
    (initState.trade_history = [] ∧ initState.trade_history.length ≤ 100) ∧
    (save_data_history initState).length ≤ 100 :=
  ⟨c10_history_never_grows.1 initState Reachable.init,
   c10_history_never_grows.2 initState⟩

end FlashBot
